import Mathlib

/-!
Shallow embedding of the SIA (System Irreducibility Analysis) search engine and
tie-resolution framework of this repository (src/pyphi/new_big_phi/__init__.py
and src/pyphi/resolve_ties.py), together with a verification of the frozen
claims about it.

Modelling conventions:
* Python floats carrying phi values are modelled as exact rationals.
* Python exceptions are modelled with the Except monad (inductive PyError).
* External collaborator capabilities (the Subsystem repertoire arithmetic, the
  partition generator, the distinction and relation computations; spec section
  6) are opaque function fields of the Subsystem structure.
* Repository code that is not under src/ (constants.EPSILON, PyPhiFloat
  comparison semantics, utils.is_positive, utils.is_falsy, utils.all_maxima,
  utils.all_minima, utils.iter_with_default) is modelled from the spec; every
  such definition carries a doc comment starting with "Modelled from the spec".
-/

namespace PyPhi

/-- Cause or effect direction (pyphi.direction.Direction). -/
inductive Direction
  | CAUSE
  | EFFECT
deriving DecidableEq

/-- Direction.both() returns (CAUSE, EFFECT). -/
def Direction.both : List Direction := [Direction.CAUSE, Direction.EFFECT]

/-- Modelled from the spec: constants.EPSILON (the constants module is not under
src/).  The fixed absolute tolerance used for phi-valued float comparisons
(spec sections 4.3 and 7; src utils.phi_eq compares abs (x - y) <= EPSILON).
The spec fixes no numeric value and no claim depends on one; a positive
rational with a small denominator is used so that concrete instances evaluate
by reduction. -/
def EPSILON : ℚ := 1 / 1000

/-- Absolute value on rationals, written out so that it evaluates by kernel
reduction. -/
def ratAbs (q : ℚ) : ℚ := if q < 0 then -q else q

/-- Modelled from the spec: equality of phi-valued floats (PyPhiFloat, from
pyphi.data_structures, which is not under src/) uses a fixed absolute
tolerance, exactly as src utils.phi_eq does: abs (x - y) <= EPSILON. -/
def pyphiEq (x y : ℚ) : Bool := decide (ratAbs (x - y) ≤ EPSILON)

/-- Modelled from the spec: strict order on phi-valued floats — strictly below
and not equal within tolerance. -/
def pyphiLt (x y : ℚ) : Bool := decide (x < y) && ! pyphiEq x y

/-- A minimization key (normalized_phi, -phi), as produced by
sia_minimization_key. -/
abbrev PKey := ℚ × ℚ

/-- Python tuple equality on minimization keys: componentwise PyPhiFloat
equality. -/
def keyEq (k l : PKey) : Bool := pyphiEq k.1 l.1 && pyphiEq k.2 l.2

/-- Python tuple comparison on minimization keys: if the first components are
equal compare the second ones, otherwise compare the first ones. -/
def keyLt (k l : PKey) : Bool :=
  if pyphiEq k.1 l.1 then pyphiLt k.2 l.2 else pyphiLt k.1 l.1

/-- Exact lexicographic strict order on keys (tolerance-free). -/
def lexLt (k l : PKey) : Prop := k.1 < l.1 ∨ (k.1 = l.1 ∧ k.2 < l.2)

/-- Exact lexicographic order on keys (tolerance-free). -/
def lexLe (k l : PKey) : Prop := k.1 < l.1 ∨ (k.1 = l.1 ∧ k.2 ≤ l.2)

instance (k l : PKey) : Decidable (lexLt k l) := by unfold lexLt; infer_instance

instance (k l : PKey) : Decidable (lexLe k l) := by unfold lexLe; infer_instance

/-- Python exceptions relevant to the embedded code. -/
inductive PyError
  | notImplementedError
  | keyError
  | valueError
  | zeroDivisionError
deriving DecidableEq

instance {ε α : Type} [DecidableEq ε] [DecidableEq α] : DecidableEq (Except ε α) :=
  fun a b =>
    match a, b with
    | Except.ok x, Except.ok y => decidable_of_iff (x = y) (by simp)
    | Except.error e, Except.error f => decidable_of_iff (e = f) (by simp)
    | Except.ok _, Except.error _ => isFalse (by simp)
    | Except.error _, Except.ok _ => isFalse (by simp)

/-- A candidate system partition (models pyphi.models.cuts.Cut / GeneralKCut at
the interface the core uses: from_nodes, to_nodes, an optional
normalization_factor of its own, spec section 6).  custom_normalization is some
value exactly when the partition type supplies its own normalization_factor
method. -/
structure Partition where
  from_nodes : List ℕ
  to_nodes : List ℕ
  custom_normalization : Option ℚ
deriving DecidableEq

/-- Per-direction result of evaluating one partition
(RepertoireIrreducibilityAnalysis at the interface the core uses: its phi
value; the repertoires it carries are opaque to the claims). -/
structure RIA where
  phi : ℚ
deriving DecidableEq

/-- One direction of the system state specification: the specified state (an
opaque index) and its intrinsic information value. -/
structure DirectionSpec where
  state : ℕ
  intrinsic_information : ℚ
deriving DecidableEq

/-- The pair of cause and effect states specified by the intact system
(SystemStateSpecification). -/
structure SystemStateSpecification where
  cause : DirectionSpec
  effect : DirectionSpec
deriving DecidableEq

/-- Short-circuit reason codes (ShortCircuitConditions). -/
inductive ShortCircuitConditions
  | NO_VALID_PARTITIONS
  | NO_CAUSE
  | NO_EFFECT
deriving DecidableEq

/-- SystemIrreducibilityAnalysis: the record of one partition's combined score.
The purely diagnostic fields current_state, node_indices and node_labels of the
source dataclass are omitted; no claim mentions them.  The mutable _ties slot
is handled separately (sia_fold and set_ties below) following the two-phase
construction the spec prescribes. -/
structure SIA where
  phi : ℚ
  partition : Option Partition
  normalized_phi : ℚ
  cause : Option RIA
  effect : Option RIA
  system_state : Option SystemStateSpecification
  reasons : List ShortCircuitConditions
deriving DecidableEq

/-- NullSystemIrreducibilityAnalysis: phi = 0, partition = None, no
per-direction results, only a system state and reason codes. -/
def null_sia (ss : SystemStateSpecification) (reasons : List ShortCircuitConditions) : SIA :=
  { phi := 0
    partition := none
    normalized_phi := 0
    cause := none
    effect := none
    system_state := some ss
    reasons := reasons }

/-- A mechanism-level distinction (external type, spec section 6): a phi value
and an opaque congruence test against a system state specification
(CauseEffectStructure.resolve_congruence consults it). -/
structure Distinction where
  phi : ℚ
  congruent : Option SystemStateSpecification → Bool

/-- Relations among distinctions (external type, spec section 6), exposing
sum_phi. -/
structure Relations where
  sum_phi : ℚ

/-- The Subsystem capability (spec section 6), with the opaque collaborator
functions the core consumes.  integration_value bundles the body of the src
integration_value function: it composes the external apply_cut, repertoire /
forward_repertoire (including the generalized-intrinsic-difference state
indexing) and evaluate_partition capabilities into the per-direction
RepertoireIrreducibilityAnalysis for a candidate partition; that composition is
out of scope (spec sections 1 and 6) and therefore opaque here.  The
repertoire-distance metric name is threaded through to it. -/
structure Subsystem where
  node_indices : List ℕ
  intrinsic_information : Direction → DirectionSpec
  integration_value : Partition → SystemStateSpecification → Option String → Direction → RIA
  ces : List Distinction
  relations_of : List Distinction → Relations

/-- system_intrinsic_information: the cause and effect states specified by the
intact system, one intrinsic-information query per direction. -/
def system_intrinsic_information (subsystem : Subsystem) : SystemStateSpecification :=
  { cause := subsystem.intrinsic_information Direction.CAUSE
    effect := subsystem.intrinsic_information Direction.EFFECT }

/-- normalization_factor: a partition's own normalization_factor when it has
one, otherwise 1 / (len from_nodes * len to_nodes); the division raises
ZeroDivisionError when a side is empty. -/
def normalization_factor (partition : Partition) : Except PyError ℚ :=
  match partition.custom_normalization with
  | some f => Except.ok f
  | none =>
    if partition.from_nodes.length * partition.to_nodes.length = 0 then
      Except.error PyError.zeroDivisionError
    else
      Except.ok (1 / ((partition.from_nodes.length * partition.to_nodes.length : ℕ) : ℚ))

/-- Python min over a list of phi values; min of an empty sequence raises
ValueError. -/
def listMin : List ℚ → Except PyError ℚ
  | [] => Except.error PyError.valueError
  | x :: xs => Except.ok (xs.foldl min x)

/-- evaluate_partition: score one candidate partition.  Per-direction
integration values are computed for both directions; phi is the minimum over
the requested directions (default both); normalized phi multiplies by the
partition's normalization factor. -/
def evaluate_partition (partition : Partition) (subsystem : Subsystem)
    (system_state : SystemStateSpecification) (repertoire_distance : Option String)
    (directions : Option (List Direction)) : Except PyError SIA :=
  let dirs := directions.getD Direction.both
  let integration := fun d =>
    subsystem.integration_value partition system_state repertoire_distance d
  match listMin (dirs.map fun d => (integration d).phi) with
  | Except.error e => Except.error e
  | Except.ok phi =>
    match normalization_factor partition with
    | Except.error e => Except.error e
    | Except.ok norm =>
      Except.ok
        { phi := phi
          normalized_phi := phi * norm
          cause := some (integration Direction.CAUSE)
          effect := some (integration Direction.EFFECT)
          partition := some partition
          system_state := some system_state
          reasons := [] }

/-- _has_no_cause_or_effect: collect NO_CAUSE and NO_EFFECT reasons for the
directions whose intrinsic information is <= 0 (zipped in cause, effect
order). -/
def has_no_cause_or_effect (system_state : SystemStateSpecification) :
    List ShortCircuitConditions :=
  (if system_state.cause.intrinsic_information ≤ 0
    then [ShortCircuitConditions.NO_CAUSE] else []) ++
  (if system_state.effect.intrinsic_information ≤ 0
    then [ShortCircuitConditions.NO_EFFECT] else [])

/-- sia_minimization_key: minimize normalized phi, break ties by maximizing
phi. -/
def sia_minimization_key (s : SIA) : PKey := (s.normalized_phi, - s.phi)

/-- Modelled from the spec: utils.is_positive (not under src/):
SIA.__bool__ is True iff phi > 0 (spec section 3). -/
def is_positive (x : ℚ) : Bool := decide (0 < x)

/-- SystemIrreducibilityAnalysis.__bool__: whether phi is positive. -/
def sia_bool (s : SIA) : Bool := is_positive s.phi

/-- Modelled from the spec: utils.is_falsy (not under src/), the
short-circuit test of the parallel evaluation — a falsy (zero-phi) SIA. -/
def is_falsy (s : SIA) : Bool := ! sia_bool s

/-- State of the streaming minimization: current MIP, current best key (none
models the initial (inf, -inf) key, which every finite key is below and no
finite key equals), and the running tie list. -/
abbrev FoldState := SIA × Option PKey × List SIA

/-- candidate_key < mip_key, with the initial infinite key. -/
def keyLtOpt (k : PKey) : Option PKey → Bool
  | none => true
  | some l => keyLt k l

/-- candidate_key == mip_key, with the initial infinite key. -/
def keyEqOpt (k : PKey) : Option PKey → Bool
  | none => false
  | some l => keyEq k l

/-- One step of the streaming minimization in sia(): strictly smaller key
replaces the MIP and resets the tie list; an equal key appends to the tie
list. -/
def sia_fold_step (st : FoldState) (candidate : SIA) : FoldState :=
  let ck := sia_minimization_key candidate
  if keyLtOpt ck st.2.1 then (candidate, some ck, [candidate])
  else if keyEqOpt ck st.2.1 then (st.1, st.2.1, st.2.2 ++ [candidate])
  else st

/-- The one-pass streaming minimization over evaluated candidates (the MIP
search loop of sia()): the best key starts at (inf, -inf) and the tie list at
the empty-search default.  Returns the MIP together with the final tie
list. -/
def sia_fold (default : SIA) (candidates : List SIA) : SIA × List SIA :=
  let r := candidates.foldl sia_fold_step (default, none, [default])
  (r.1, r.2.2)

/-- The final loop of sia(): attach the full tie list to every SIA in it (each
tied SIA, the winner included, gets the same list). -/
def set_ties (result : SIA × List SIA) : List (SIA × List SIA) :=
  result.2.map (fun t => (t, result.2))

/-- The sequential run of MapReduce(evaluate_partition, partitions, ...,
shortcircuit_func=is_falsy): evaluate candidates in order, stopping after the
first falsy result (the external parallel executor is out of scope, spec
section 6; this is its sequential delivery schedule).  A worker exception
propagates. -/
def run_mapreduce (subsystem : Subsystem) (system_state : SystemStateSpecification)
    (repertoire_distance : Option String) (directions : Option (List Direction)) :
    List Partition → Except PyError (List SIA)
  | [] => Except.ok []
  | p :: ps =>
    match evaluate_partition p subsystem system_state repertoire_distance directions with
    | Except.error e => Except.error e
    | Except.ok r =>
      if is_falsy r then Except.ok [r]
      else
        match run_mapreduce subsystem system_state repertoire_distance directions ps with
        | Except.error e => Except.error e
        | Except.ok rs => Except.ok (r :: rs)

/-- sia: the top-level minimum-information-partition search.  The candidate
partitions are caller-supplied (the external system_partitions generator and
its GENERAL connectivity filter are out of scope, spec sections 1 and 6).
Returns the winning SIA together with the tie list attached to it and to every
tied SIA. -/
def sia (subsystem : Subsystem) (partitions : List Partition)
    (repertoire_distance : Option String) (directions : Option (List Direction)) :
    Except PyError (SIA × List SIA) :=
  let system_state := system_intrinsic_information subsystem
  let shortcircuit_reasons := has_no_cause_or_effect system_state
  if shortcircuit_reasons.isEmpty then
    let default := null_sia system_state [ShortCircuitConditions.NO_VALID_PARTITIONS]
    match run_mapreduce subsystem system_state repertoire_distance directions partitions with
    | Except.error e => Except.error e
    | Except.ok delivered => Except.ok (sia_fold default delivered)
  else
    Except.ok (null_sia system_state shortcircuit_reasons,
               [null_sia system_state shortcircuit_reasons])

/-! ### Tie-resolution framework (src/pyphi/resolve_ties.py) -/

/-- A candidate phi-object at the interface the tie-resolution strategies use:
a phi value, a purview, a normalized phi value, presence of a partitioned
repertoire, and the state-indexed maximum of the external pointwise mutual
information metric (the metric computation itself is out of scope, spec
section 6, so its value is carried as an opaque field). -/
structure PhiObject where
  phi : ℚ
  purview : List ℕ
  normalized_phi : ℚ
  partitioned_repertoire : Option Unit
  specified_pmi : ℚ
deriving DecidableEq

/-- The MAX_INFORMATIVENESS strategy: the state-indexed maximum pointwise
mutual information when a partitioned repertoire is present, else 0. -/
def max_informativeness (m : PhiObject) : Except PyError ℚ :=
  match m.partitioned_repertoire with
  | some _ => Except.ok m.specified_pmi
  | none => Except.ok 0

/-- The registered "NONE" sentinel scoring function: calling it is a
programming error and raises NotImplementedError. -/
def strategy_none (_m : PhiObject) : Except PyError ℚ :=
  Except.error PyError.notImplementedError

/-- The phi-object tie-resolution strategy registry: pure scoring functions
stored under string keys. -/
def phi_object_tie_resolution_strategies :
    String → Option (PhiObject → Except PyError ℚ)
  | "MAX_INFORMATIVENESS" => some max_informativeness
  | "PURVIEW_SIZE" => some (fun m => Except.ok (m.purview.length : ℚ))
  | "NEGATIVE_PURVIEW_SIZE" => some (fun m => Except.ok (- (m.purview.length : ℚ)))
  | "PHI" => some (fun m => Except.ok m.phi)
  | "NEGATIVE_PHI" => some (fun m => Except.ok (- m.phi))
  | "NORMALIZED_PHI" => some (fun m => Except.ok m.normalized_phi)
  | "NEGATIVE_NORMALIZED_PHI" => some (fun m => Except.ok (- m.normalized_phi))
  | "NONE" => some strategy_none
  | _ => none

/-- A strategy argument to resolve(): either a bare string or a list of
strategy names. -/
inductive StrategySpec
  | single (s : String)
  | chain (ss : List String)
deriving DecidableEq

/-- Normalize a strategy argument to a list of names (a bare string becomes a
one-element list). -/
def strategy_names : StrategySpec → List String
  | StrategySpec.single s => [s]
  | StrategySpec.chain ss => ss

/-- _strategies_to_key_function: the effective sort key of an object is the
tuple of each named strategy's score, applied in the given order.  An
unregistered name raises KeyError. -/
def strategies_to_key_function (strategy : StrategySpec) (obj : PhiObject) :
    Except PyError (List ℚ) :=
  (strategy_names strategy).mapM fun s =>
    match phi_object_tie_resolution_strategies s with
    | some f => f obj
    | none => Except.error PyError.keyError

/-- Python tuple comparison on key tuples (exact; the strategy scores include
integer-valued keys such as purview sizes). -/
def key_tuple_lt : List ℚ → List ℚ → Bool
  | [], [] => false
  | [], _ :: _ => true
  | _ :: _, [] => false
  | a :: as2, b :: bs2 => if a = b then key_tuple_lt as2 bs2 else decide (a < b)

/-- Modelled from the spec: utils.all_maxima / all_minima (not under src/):
return every candidate whose key is extremal, not merely one, and return the
caller-supplied default (wrapped into a collection) when the input is empty;
with no default an empty input is an error. -/
def all_extrema (beats : List ℚ → List ℚ → Bool)
    (pairs : List (List ℚ × PhiObject)) (default : Option (List ℚ × PhiObject)) :
    Except PyError (List (List ℚ × PhiObject)) :=
  match pairs with
  | [] =>
    match default with
    | some d => Except.ok [d]
    | none => Except.error PyError.valueError
  | _ :: _ => Except.ok (pairs.filter fun p => pairs.all fun q => ! beats q.1 p.1)

/-- Modelled from the spec: utils.all_maxima — all candidates not beaten by a
strictly greater key. -/
def all_maxima (pairs : List (List ℚ × PhiObject)) (default : Option (List ℚ × PhiObject)) :
    Except PyError (List (List ℚ × PhiObject)) :=
  all_extrema (fun a b => key_tuple_lt b a) pairs default

/-- Modelled from the spec: utils.all_minima — all candidates not beaten by a
strictly smaller key. -/
def all_minima (pairs : List (List ℚ × PhiObject)) (default : Option (List ℚ × PhiObject)) :
    Except PyError (List (List ℚ × PhiObject)) :=
  all_extrema (fun a b => key_tuple_lt a b) pairs default

/-- Modelled from the spec: utils.iter_with_default (not under src/): yield the
objects unchanged, or the supplied default when the collection is empty. -/
def iter_with_default (objects : List PhiObject) (default : Option PhiObject) :
    List PhiObject :=
  if objects.isEmpty then
    match default with
    | some d => [d]
    | none => []
  else objects

/-- Map with exception propagation (Python list construction over a generator
whose element computations may raise). -/
def except_map (f : PhiObject → Except PyError (List ℚ)) :
    List PhiObject → Except PyError (List (List ℚ))
  | [] => Except.ok []
  | x :: xs =>
    match f x with
    | Except.error e => Except.error e
    | Except.ok k =>
      match except_map f xs with
      | Except.error e => Except.error e
      | Except.ok ks => Except.ok (k :: ks)

/-- resolve: filter phi-objects to those whose strategy key is extremal under
the operation; the literal sentinel "NONE" short-circuits to the objects
unchanged (or the default) before any scoring function is consulted. -/
def resolve (objects : List PhiObject) (strategy : StrategySpec)
    (operation : List (List ℚ × PhiObject) → Option (List ℚ × PhiObject) →
      Except PyError (List (List ℚ × PhiObject)))
    (default : Option PhiObject) : Except PyError (List PhiObject) :=
  if strategy = StrategySpec.single "NONE" then
    Except.ok (iter_with_default objects default)
  else
    match except_map (strategies_to_key_function strategy) objects with
    | Except.error e => Except.error e
    | Except.ok keys =>
      match
        (match default with
          | none => Except.ok none
          | some d0 =>
            match strategies_to_key_function strategy d0 with
            | Except.error e => Except.error e
            | Except.ok kd => Except.ok (some (kd, d0))) with
      | Except.error e => Except.error e
      | Except.ok d =>
        match operation (keys.zip objects) d with
        | Except.error e => Except.error e
        | Except.ok ties => Except.ok (ties.map Prod.snd)

/-- resolve_ties.states: resolve ties among states with the configured
strategy (configuration is external; it is passed explicitly) and the
all-maxima operation. -/
def resolve_ties_states (rias : List PhiObject) (strategy : Option StrategySpec)
    (config_state_tie_resolution : StrategySpec) : Except PyError (List PhiObject) :=
  resolve rias (strategy.getD config_state_tie_resolution) all_maxima none

/-- resolve_ties.partitions: resolve ties among mechanism partitions with the
configured strategy and the all-minima operation. -/
def resolve_ties_partitions (mips : List PhiObject) (strategy : Option StrategySpec)
    (config_mip_tie_resolution : StrategySpec) : Except PyError (List PhiObject) :=
  resolve mips (strategy.getD config_mip_tie_resolution) all_minima none

/-- resolve_ties.purviews: resolve ties among purviews with the configured
strategy and the all-maxima operation. -/
def resolve_ties_purviews (mice : List PhiObject) (strategy : Option StrategySpec)
    (config_purview_tie_resolution : StrategySpec) : Except PyError (List PhiObject) :=
  resolve mice (strategy.getD config_purview_tie_resolution) all_maxima none

/-! ### Composition (PhiStructure) -/

/-- CauseEffectStructure.resolve_congruence: filter distinctions for congruence
with the winning SIA's system state. -/
def resolve_congruence (distinctions : List Distinction)
    (system_state : Option SystemStateSpecification) : List Distinction :=
  distinctions.filter fun d => d.congruent system_state

/-- PhiStructure: aggregate of one SIA, distinctions and relations. -/
structure PhiStructure where
  sia : SIA
  distinctions : List Distinction
  relations : Relations

/-- PhiStructure.sum_phi_distinctions (the lazy cache is modelled away: the
value is a pure function of the immutable inputs, which the spec notes makes
caching always safe). -/
def sum_phi_distinctions (ps : PhiStructure) : ℚ :=
  (ps.distinctions.map Distinction.phi).sum

/-- PhiStructure.sum_phi_relations. -/
def sum_phi_relations (ps : PhiStructure) : ℚ := ps.relations.sum_phi

/-- PhiStructure.big_phi = sum of distinction phis + sum of relation phis. -/
def big_phi (ps : PhiStructure) : ℚ := sum_phi_distinctions ps + sum_phi_relations ps

/-- phi_structure: analyze the irreducible cause-effect structure; the SIA,
distinctions and relations are computed when not supplied (distinction and
relation computation are the external capabilities of the subsystem), and the
distinctions — supplied or not — are congruence-filtered against the SIA's
system state before use. -/
def phi_structure (subsystem : Subsystem) (partitions : List Partition)
    (siaArg : Option SIA) (distinctionsArg : Option (List Distinction))
    (relationsArg : Option Relations) : Except PyError PhiStructure :=
  match
    (match siaArg with
      | some s => Except.ok s
      | none =>
        match sia subsystem partitions none none with
        | Except.error e => Except.error e
        | Except.ok pr => Except.ok pr.1) with
  | Except.error e => Except.error e
  | Except.ok s =>
    let d0 :=
      match distinctionsArg with
      | some d => d
      | none => subsystem.ces
    let d := resolve_congruence d0 s.system_state
    let r :=
      match relationsArg with
      | some r => r
      | none => subsystem.relations_of d
    Except.ok { sia := s, distinctions := d, relations := r }

/-! ### Separation: where the tolerance comparisons agree with the exact order -/

/-- Two phi components are separated when they are exactly equal or differ by
more than the tolerance. -/
def compSep (x y : ℚ) : Prop := x = y ∨ EPSILON < ratAbs (x - y)

instance (x y : ℚ) : Decidable (compSep x y) := by unfold compSep; infer_instance

/-- Two keys are componentwise separated. -/
def keySep (k l : PKey) : Prop := compSep k.1 l.1 ∧ compSep k.2 l.2

instance (k l : PKey) : Decidable (keySep k l) := by unfold keySep; infer_instance

/-- A candidate list has separated keys when every pair of its members'
minimization keys is componentwise separated (no near-ties within the
tolerance band). -/
def SeparatedKeys (l : List SIA) : Prop :=
  ∀ a ∈ l, ∀ b ∈ l, keySep (sia_minimization_key a) (sia_minimization_key b)

instance (l : List SIA) : Decidable (SeparatedKeys l) := by
  unfold SeparatedKeys; infer_instance

lemma EPSILON_pos : 0 < EPSILON := by norm_num [EPSILON]

lemma ratAbs_eq_abs (q : ℚ) : ratAbs q = |q| := by
  unfold ratAbs
  by_cases h : q < 0
  · rw [if_pos h, abs_of_neg h]
  · rw [if_neg h, abs_of_nonneg (not_lt.mp h)]

lemma compSep_ne (x y : ℚ) (h : EPSILON < ratAbs (x - y)) : x ≠ y := by
  intro he
  subst he
  rw [ratAbs_eq_abs] at h
  simp only [sub_self, abs_zero] at h
  linarith [EPSILON_pos]

lemma pyphiEq_refl (x : ℚ) : pyphiEq x x = true := by
  unfold pyphiEq
  rw [ratAbs_eq_abs]
  simp only [sub_self, abs_zero, decide_eq_true_eq]
  exact le_of_lt EPSILON_pos

lemma pyphiEq_false (x y : ℚ) (h : EPSILON < ratAbs (x - y)) : pyphiEq x y = false := by
  unfold pyphiEq
  simp only [decide_eq_false_iff_not, not_le]
  exact h

lemma pyphiEq_iff (x y : ℚ) (h : compSep x y) : pyphiEq x y = true ↔ x = y := by
  rcases h with h | h
  · subst h
    simp [pyphiEq_refl]
  · rw [pyphiEq_false x y h]
    simp only [Bool.false_eq_true, false_iff]
    exact compSep_ne x y h

lemma pyphiLt_iff (x y : ℚ) (h : compSep x y) : pyphiLt x y = true ↔ x < y := by
  unfold pyphiLt
  rcases h with h | h
  · subst h
    simp
  · rw [pyphiEq_false x y h]
    simp only [Bool.not_false, Bool.and_true, decide_eq_true_eq]

lemma keyEq_refl (k : PKey) : keyEq k k = true := by
  unfold keyEq
  rw [pyphiEq_refl, pyphiEq_refl]
  rfl

lemma keyEq_iff (k l : PKey) (h : keySep k l) : keyEq k l = true ↔ k = l := by
  unfold keyEq
  rw [Bool.and_eq_true, pyphiEq_iff _ _ h.1, pyphiEq_iff _ _ h.2, Prod.ext_iff]

lemma keyLt_iff (k l : PKey) (h : keySep k l) : keyLt k l = true ↔ lexLt k l := by
  unfold keyLt lexLt
  rcases h with ⟨hc1, hc2⟩
  rcases hc1 with he | hne
  · rw [if_pos ((pyphiEq_iff _ _ (Or.inl he)).mpr he), pyphiLt_iff _ _ hc2]
    constructor
    · intro hlt
      exact Or.inr ⟨he, hlt⟩
    · rintro (hlt | ⟨_, hlt⟩)
      · exact absurd hlt (by rw [he]; exact lt_irrefl _)
      · exact hlt
  · rw [if_neg (by rw [pyphiEq_false _ _ hne]; exact Bool.false_ne_true),
      pyphiLt_iff _ _ (Or.inr hne)]
    constructor
    · intro hlt
      exact Or.inl hlt
    · rintro (hlt | ⟨he, _⟩)
      · exact hlt
      · exact absurd he (compSep_ne _ _ hne)

/-! ### The exact lexicographic order -/

lemma lexLt_le (k l : PKey) (h : lexLt k l) : lexLe k l := by
  rcases h with h | ⟨h1, h2⟩
  · exact Or.inl h
  · exact Or.inr ⟨h1, le_of_lt h2⟩

lemma lexLe_refl (k : PKey) : lexLe k k := Or.inr ⟨rfl, le_refl _⟩

lemma lexLe_trans (a b c : PKey) (h1 : lexLe a b) (h2 : lexLe b c) : lexLe a c := by
  rcases h1 with h1 | ⟨h1e, h1le⟩ <;> rcases h2 with h2 | ⟨h2e, h2le⟩
  · exact Or.inl (lt_trans h1 h2)
  · exact Or.inl (h2e ▸ h1)
  · exact Or.inl (h1e ▸ h2)
  · exact Or.inr ⟨h1e.trans h2e, le_trans h1le h2le⟩

lemma lexLt_of_lexLt_of_lexLe (a b c : PKey) (h1 : lexLt a b) (h2 : lexLe b c) :
    lexLt a c := by
  rcases h1 with h1 | ⟨h1e, h1lt⟩ <;> rcases h2 with h2 | ⟨h2e, h2le⟩
  · exact Or.inl (lt_trans h1 h2)
  · exact Or.inl (h2e ▸ h1)
  · exact Or.inl (h1e ▸ h2)
  · exact Or.inr ⟨h1e.trans h2e, lt_of_lt_of_le h1lt h2le⟩

lemma lexLt_irrefl (k : PKey) : ¬ lexLt k k := by
  rintro (h | ⟨_, h⟩) <;> exact lt_irrefl _ h

lemma lexLt_ne (k l : PKey) (h : lexLt k l) : k ≠ l := by
  intro he
  subst he
  exact lexLt_irrefl k h

lemma lexLt_asymm (k l : PKey) (h : lexLt k l) : ¬ lexLt l k := by
  intro h2
  exact lexLt_irrefl k (lexLt_of_lexLt_of_lexLe k l k h (lexLt_le l k h2))

lemma lexLe_antisymm (k l : PKey) (h1 : lexLe k l) (h2 : lexLe l k) : k = l := by
  rcases h1 with h1 | ⟨h1e, h1le⟩ <;> rcases h2 with h2 | ⟨h2e, h2le⟩
  · exact absurd h2 (lt_asymm h1)
  · exact absurd h1 (h2e ▸ lt_irrefl _)
  · exact absurd h2 (h1e ▸ lt_irrefl _)
  · exact Prod.ext_iff.mpr ⟨h1e, le_antisymm h1le h2le⟩

lemma lexLt_trichotomy (k l : PKey) : lexLt k l ∨ k = l ∨ lexLt l k := by
  rcases lt_trichotomy k.1 l.1 with h1 | h1 | h1
  · exact Or.inl (Or.inl h1)
  · rcases lt_trichotomy k.2 l.2 with h2 | h2 | h2
    · exact Or.inl (Or.inr ⟨h1, h2⟩)
    · exact Or.inr (Or.inl (Prod.ext_iff.mpr ⟨h1, h2⟩))
    · exact Or.inr (Or.inr (Or.inr ⟨h1.symm, h2⟩))
  · exact Or.inr (Or.inr (Or.inl h1))

/-! ### The streaming minimization fold under separated keys -/

lemma sia_fold_step_lt (st : FoldState) (c : SIA)
    (h : keyLtOpt (sia_minimization_key c) st.2.1 = true) :
    sia_fold_step st c = (c, some (sia_minimization_key c), [c]) := by
  unfold sia_fold_step
  rw [if_pos h]

lemma sia_fold_step_eq (st : FoldState) (c : SIA)
    (h1 : keyLtOpt (sia_minimization_key c) st.2.1 = false)
    (h2 : keyEqOpt (sia_minimization_key c) st.2.1 = true) :
    sia_fold_step st c = (st.1, st.2.1, st.2.2 ++ [c]) := by
  unfold sia_fold_step
  rw [if_neg (by rw [h1]; exact Bool.false_ne_true), if_pos h2]

lemma sia_fold_step_gt (st : FoldState) (c : SIA)
    (h1 : keyLtOpt (sia_minimization_key c) st.2.1 = false)
    (h2 : keyEqOpt (sia_minimization_key c) st.2.1 = false) :
    sia_fold_step st c = st := by
  unfold sia_fold_step
  rw [if_neg (by rw [h1]; exact Bool.false_ne_true),
    if_neg (by rw [h2]; exact Bool.false_ne_true)]

lemma sia_fold_go (cs : List SIA) :
    ∀ (processed : List SIA) (mip : SIA) (acc : List SIA),
      SeparatedKeys (processed ++ cs) →
      mip ∈ processed →
      (∀ c ∈ processed, lexLe (sia_minimization_key mip) (sia_minimization_key c)) →
      acc = processed.filter
        (fun c => keyEq (sia_minimization_key c) (sia_minimization_key mip)) →
      ∃ w ties,
        cs.foldl sia_fold_step (mip, some (sia_minimization_key mip), acc)
            = (w, some (sia_minimization_key w), ties)
          ∧ w ∈ processed ++ cs
          ∧ (∀ c ∈ processed ++ cs,
              lexLe (sia_minimization_key w) (sia_minimization_key c))
          ∧ ties = (processed ++ cs).filter
              (fun c => keyEq (sia_minimization_key c) (sia_minimization_key w)) := by
  induction cs with
  | nil =>
    intro processed mip acc hsep hmem hbound hacc
    refine ⟨mip, acc, rfl, ?_, ?_, ?_⟩
    · simpa using hmem
    · simpa using hbound
    · simpa using hacc
  | cons c cs2 ih =>
    intro processed mip acc hsep hmem hbound hacc
    have hc_mem : c ∈ processed ++ c :: cs2 := by simp
    have hmip_mem : mip ∈ processed ++ c :: cs2 := List.mem_append_left _ hmem
    have hks : keySep (sia_minimization_key c) (sia_minimization_key mip) :=
      hsep c hc_mem mip hmip_mem
    have hre : (processed ++ [c]) ++ cs2 = processed ++ c :: cs2 := by simp
    have hsep2 : SeparatedKeys ((processed ++ [c]) ++ cs2) := by rw [hre]; exact hsep
    rw [List.foldl_cons]
    rcases lexLt_trichotomy (sia_minimization_key c) (sia_minimization_key mip) with
      hlt | heq | hgt
    · have hb : keyLtOpt (sia_minimization_key c) (some (sia_minimization_key mip)) = true := by
        unfold keyLtOpt
        exact (keyLt_iff _ _ hks).mpr hlt
      rw [sia_fold_step_lt _ _ hb]
      have hbound2 : ∀ x ∈ processed ++ [c],
          lexLe (sia_minimization_key c) (sia_minimization_key x) := by
        intro x hx
        rcases List.mem_append.mp hx with hxp | hxc
        · exact lexLt_le _ _ (lexLt_of_lexLt_of_lexLe _ _ _ hlt (hbound x hxp))
        · rw [List.mem_singleton.mp hxc]
          exact lexLe_refl _
      have hacc2 : [c] = (processed ++ [c]).filter
          (fun x => keyEq (sia_minimization_key x) (sia_minimization_key c)) := by
        rw [List.filter_append]
        have hnil : processed.filter
            (fun x => keyEq (sia_minimization_key x) (sia_minimization_key c)) = [] := by
          rw [List.filter_eq_nil_iff]
          intro x hxp
          have hxs : keySep (sia_minimization_key x) (sia_minimization_key c) :=
            hsep x (List.mem_append_left _ hxp) c hc_mem
          simp only [keyEq_iff _ _ hxs]
          exact fun he => lexLt_ne _ _
            (lexLt_of_lexLt_of_lexLe _ _ _ hlt (hbound x hxp)) he.symm
        rw [hnil]
        simp [keyEq_refl]
      obtain ⟨w, ties, hfold, hwmem, hwbound, hwties⟩ :=
        ih (processed ++ [c]) c [c] hsep2 (by simp) hbound2 hacc2
      rw [hre] at hwmem hwbound hwties
      exact ⟨w, ties, hfold, hwmem, hwbound, hwties⟩
    · have hblt : keyLtOpt (sia_minimization_key c) (some (sia_minimization_key mip)) = false := by
        unfold keyLtOpt
        rw [← Bool.not_eq_true, keyLt_iff _ _ hks]
        rw [heq]
        exact lexLt_irrefl _
      have hbeq : keyEqOpt (sia_minimization_key c) (some (sia_minimization_key mip)) = true := by
        unfold keyEqOpt
        rw [heq]
        exact keyEq_refl _
      rw [sia_fold_step_eq _ _ hblt hbeq]
      have hbound2 : ∀ x ∈ processed ++ [c],
          lexLe (sia_minimization_key mip) (sia_minimization_key x) := by
        intro x hx
        rcases List.mem_append.mp hx with hxp | hxc
        · exact hbound x hxp
        · rw [List.mem_singleton.mp hxc, heq]
          exact lexLe_refl _
      have hacc2 : acc ++ [c] = (processed ++ [c]).filter
          (fun x => keyEq (sia_minimization_key x) (sia_minimization_key mip)) := by
        have hpc : keyEq (sia_minimization_key c) (sia_minimization_key mip) = true := by
          rw [heq]
          exact keyEq_refl _
        rw [List.filter_append, ← hacc]
        simp [List.filter_cons, hpc]
      obtain ⟨w, ties, hfold, hwmem, hwbound, hwties⟩ :=
        ih (processed ++ [c]) mip (acc ++ [c]) hsep2 (List.mem_append_left _ hmem)
          hbound2 hacc2
      rw [hre] at hwmem hwbound hwties
      exact ⟨w, ties, hfold, hwmem, hwbound, hwties⟩
    · have hblt : keyLtOpt (sia_minimization_key c) (some (sia_minimization_key mip)) = false := by
        unfold keyLtOpt
        rw [← Bool.not_eq_true, keyLt_iff _ _ hks]
        exact lexLt_asymm _ _ hgt
      have hbeq : keyEqOpt (sia_minimization_key c) (some (sia_minimization_key mip)) = false := by
        unfold keyEqOpt
        rw [← Bool.not_eq_true, keyEq_iff _ _ hks]
        exact fun he => lexLt_ne _ _ hgt he.symm
      rw [sia_fold_step_gt _ _ hblt hbeq]
      have hbound2 : ∀ x ∈ processed ++ [c],
          lexLe (sia_minimization_key mip) (sia_minimization_key x) := by
        intro x hx
        rcases List.mem_append.mp hx with hxp | hxc
        · exact hbound x hxp
        · rw [List.mem_singleton.mp hxc]
          exact lexLt_le _ _ hgt
      have hacc2 : acc = (processed ++ [c]).filter
          (fun x => keyEq (sia_minimization_key x) (sia_minimization_key mip)) := by
        have hpc : keyEq (sia_minimization_key c) (sia_minimization_key mip) = false := by
          rw [← Bool.not_eq_true, keyEq_iff _ _ hks]
          exact fun he => lexLt_ne _ _ hgt he.symm
        rw [List.filter_append, ← hacc]
        simp [List.filter_cons, hpc]
      obtain ⟨w, ties, hfold, hwmem, hwbound, hwties⟩ :=
        ih (processed ++ [c]) mip acc hsep2 (List.mem_append_left _ hmem) hbound2 hacc2
      rw [hre] at hwmem hwbound hwties
      exact ⟨w, ties, hfold, hwmem, hwbound, hwties⟩

lemma sia_fold_spec (default : SIA) (cands : List SIA)
    (hsep : SeparatedKeys cands) (hne : cands ≠ []) :
    ∃ w ties, sia_fold default cands = (w, ties)
      ∧ w ∈ cands
      ∧ (∀ c ∈ cands, lexLe (sia_minimization_key w) (sia_minimization_key c))
      ∧ ties = cands.filter
          (fun c => keyEq (sia_minimization_key c) (sia_minimization_key w)) := by
  match cands, hne with
  | c :: cs, _ =>
    have hstep : sia_fold_step (default, none, [default]) c
        = (c, some (sia_minimization_key c), [c]) :=
      sia_fold_step_lt _ _ rfl
    have hsep2 : SeparatedKeys ([c] ++ cs) := by simpa using hsep
    obtain ⟨w, ties, hfold, hwmem, hwbound, hwties⟩ :=
      sia_fold_go cs [c] c [c] hsep2 (by simp)
        (by intro x hx; rw [List.mem_singleton.mp hx]; exact lexLe_refl _)
        (by simp [keyEq_refl])
    refine ⟨w, ties, ?_, by simpa using hwmem, by simpa using hwbound, by simpa using hwties⟩
    unfold sia_fold
    rw [List.foldl_cons, hstep, hfold]

/-! ### Concrete fixtures used by counterexamples and witnesses -/

/-- A concrete system state specification with positive intrinsic information
in both directions. -/
def fixSS : SystemStateSpecification :=
  { cause := { state := 0, intrinsic_information := 1 }
    effect := { state := 0, intrinsic_information := 1 } }

/-- A concrete subsystem whose opaque integration capability scores every
partition, in both directions, with phi equal to the length of the partition's
from_nodes side. -/
def fixSub : Subsystem :=
  { node_indices := [0, 1]
    intrinsic_information := fun _ => { state := 0, intrinsic_information := 1 }
    integration_value := fun p _ _ _ => { phi := (p.from_nodes.length : ℚ) }
    ces := []
    relations_of := fun _ => { sum_phi := 0 } }

/-- The empty-search default SIA of the minimization. -/
def fixDefault : SIA := null_sia fixSS [ShortCircuitConditions.NO_VALID_PARTITIONS]

def cex1P1 : Partition :=
  { from_nodes := [0], to_nodes := [9], custom_normalization := some 1 }

def cex1P2 : Partition :=
  { from_nodes := [0, 1], to_nodes := [9],
    custom_normalization := some ((1 + EPSILON) / 2) }

def cex1P3 : Partition :=
  { from_nodes := [0, 1, 2], to_nodes := [9],
    custom_normalization := some ((1 + 2 * EPSILON) / 3) }

/-- Evaluation of cex1P1: phi 1, normalized phi 1, key (1, -1). -/
def cex1A1 : SIA :=
  { phi := 1, partition := some cex1P1, normalized_phi := 1
    cause := some { phi := 1 }, effect := some { phi := 1 }
    system_state := some fixSS, reasons := [] }

/-- Evaluation of cex1P2: phi 2, normalized phi 1 + EPSILON, key
(1 + EPSILON, -2). -/
def cex1A2 : SIA :=
  { phi := 2, partition := some cex1P2, normalized_phi := 1 + EPSILON
    cause := some { phi := 2 }, effect := some { phi := 2 }
    system_state := some fixSS, reasons := [] }

/-- Evaluation of cex1P3: phi 3, normalized phi 1 + 2·EPSILON, key
(1 + 2·EPSILON, -3). -/
def cex1A3 : SIA :=
  { phi := 3, partition := some cex1P3, normalized_phi := 1 + 2 * EPSILON
    cause := some { phi := 3 }, effect := some { phi := 3 }
    system_state := some fixSS, reasons := [] }

/-- A second candidate with key (2, -2), separated from cex1A1's key
(1, -1). -/
def wit1B : SIA :=
  { phi := 2, partition := some cex1P2, normalized_phi := 2
    cause := some { phi := 2 }, effect := some { phi := 2 }
    system_state := some fixSS, reasons := [] }

/-! ### C1 -/

/-- C1 (amended): when at least one candidate is evaluated and the evaluated
candidates' minimization keys are pairwise componentwise separated (exactly
equal or more than the tolerance apart), the streaming minimization of sia()
returns an SIA whose key (normalized_phi, -phi) is lexicographically ≤ every
evaluated candidate's key, its tie list is exactly the candidates whose key
equals the winner's, and set_ties gives every member of the tie list (the
winner included) that same full tie list. -/
theorem C1_minimization_and_ties (default : SIA) (cands : List SIA)
    (hsep : SeparatedKeys cands) (hne : cands ≠ []) :
    (∀ c ∈ cands,
        lexLe (sia_minimization_key (sia_fold default cands).1)
          (sia_minimization_key c))
    ∧ (sia_fold default cands).2 = cands.filter
        (fun c => keyEq (sia_minimization_key c)
          (sia_minimization_key (sia_fold default cands).1))
    ∧ ∀ m ∈ set_ties (sia_fold default cands), m.2 = (sia_fold default cands).2 := by
  obtain ⟨w, ties, hfold, hwmem, hwbound, hwties⟩ := sia_fold_spec default cands hsep hne
  refine ⟨?_, ?_, ?_⟩
  · rw [hfold]
    exact hwbound
  · rw [hfold]
    exact hwties
  · rw [hfold]
    intro m hm
    simp only [set_ties, List.mem_map] at hm
    obtain ⟨t, _, rfl⟩ := hm
    rfl

set_option maxRecDepth 4000 in
/-- C1 counterexample: three realizable evaluated candidates whose keys
(1, -1), (1 + EPSILON, -2), (1 + 2·EPSILON, -3) form a chain of within-
tolerance steps.  The tolerance-based fold lets the winning key drift upward,
so the returned SIA's key is not ≤ the first candidate's key — neither in the
exact lexicographic order nor under the program's own tolerance
comparisons. -/
theorem C1_counterexample :
    evaluate_partition cex1P1 fixSub fixSS none none = Except.ok cex1A1
    ∧ evaluate_partition cex1P2 fixSub fixSS none none = Except.ok cex1A2
    ∧ evaluate_partition cex1P3 fixSub fixSS none none = Except.ok cex1A3
    ∧ ¬ lexLe (sia_minimization_key (sia_fold fixDefault [cex1A1, cex1A2, cex1A3]).1)
        (sia_minimization_key cex1A1)
    ∧ keyLt (sia_minimization_key (sia_fold fixDefault [cex1A1, cex1A2, cex1A3]).1)
        (sia_minimization_key cex1A1) = false
    ∧ keyEq (sia_minimization_key (sia_fold fixDefault [cex1A1, cex1A2, cex1A3]).1)
        (sia_minimization_key cex1A1) = false := by
  refine ⟨?_, ?_, ?_, ?_, ?_, ?_⟩ <;> with_unfolding_all decide

set_option maxRecDepth 4000 in
/-- C1 witness: the amended theorem applied to two separated candidates. -/
theorem C1_witness :
    SeparatedKeys [cex1A1, wit1B] ∧ ([cex1A1, wit1B] : List SIA) ≠ []
    ∧ ((∀ c ∈ [cex1A1, wit1B],
          lexLe (sia_minimization_key (sia_fold fixDefault [cex1A1, wit1B]).1)
            (sia_minimization_key c))
       ∧ (sia_fold fixDefault [cex1A1, wit1B]).2 = [cex1A1, wit1B].filter
           (fun c => keyEq (sia_minimization_key c)
             (sia_minimization_key (sia_fold fixDefault [cex1A1, wit1B]).1))
       ∧ ∀ m ∈ set_ties (sia_fold fixDefault [cex1A1, wit1B]),
           m.2 = (sia_fold fixDefault [cex1A1, wit1B]).2) :=
  ⟨by with_unfolding_all decide, by decide,
    C1_minimization_and_ties fixDefault [cex1A1, wit1B]
      (by with_unfolding_all decide) (by decide)⟩

/-! ### C2 -/

def cex2Q1 : Partition :=
  { from_nodes := [5], to_nodes := [9], custom_normalization := some 1 }

def cex2Q2 : Partition :=
  { from_nodes := [5], to_nodes := [9], custom_normalization := some (1 + EPSILON) }

def cex2Q3 : Partition :=
  { from_nodes := [5], to_nodes := [9],
    custom_normalization := some (1 + 2 * EPSILON) }

/-- Evaluation of cex2Q1: phi 1, key (1, -1). -/
def cex2B1 : SIA :=
  { phi := 1, partition := some cex2Q1, normalized_phi := 1
    cause := some { phi := 1 }, effect := some { phi := 1 }
    system_state := some fixSS, reasons := [] }

/-- Evaluation of cex2Q2: phi 1, key (1 + EPSILON, -1). -/
def cex2B2 : SIA :=
  { phi := 1, partition := some cex2Q2, normalized_phi := 1 + EPSILON
    cause := some { phi := 1 }, effect := some { phi := 1 }
    system_state := some fixSS, reasons := [] }

/-- Evaluation of cex2Q3: phi 1, key (1 + 2·EPSILON, -1). -/
def cex2B3 : SIA :=
  { phi := 1, partition := some cex2Q3, normalized_phi := 1 + 2 * EPSILON
    cause := some { phi := 1 }, effect := some { phi := 1 }
    system_state := some fixSS, reasons := [] }

/-- C2 (amended): the tie-set contents of the streaming minimization are
permutation-independent provided the delivered results' minimization keys are
pairwise componentwise separated (no near-ties inside the tolerance band). -/
theorem C2_tie_order_independence (default : SIA) (l1 l2 : List SIA)
    (hsep : SeparatedKeys l1) (hperm : List.Perm l1 l2) :
    List.Perm (sia_fold default l1).2 (sia_fold default l2).2 := by
  by_cases hne : l1 = []
  · subst hne
    rw [hperm.symm.eq_nil]
  · have hne2 : l2 ≠ [] := by
      intro h
      subst h
      exact hne hperm.eq_nil
    have hsep2 : SeparatedKeys l2 := by
      intro a ha b hb
      exact hsep a (hperm.mem_iff.mpr ha) b (hperm.mem_iff.mpr hb)
    obtain ⟨w1, t1, hf1, hm1, hb1, ht1⟩ := sia_fold_spec default l1 hsep hne
    obtain ⟨w2, t2, hf2, hm2, hb2, ht2⟩ := sia_fold_spec default l2 hsep2 hne2
    have hk : sia_minimization_key w1 = sia_minimization_key w2 :=
      lexLe_antisymm _ _ (hb1 w2 (hperm.mem_iff.mpr hm2))
        (hb2 w1 (hperm.mem_iff.mp hm1))
    rw [hf1, hf2]
    rw [hk] at ht1
    rw [ht1, ht2]
    exact hperm.filter _

set_option maxRecDepth 4000 in
/-- C2 counterexample: three realizable evaluated results with keys (1, -1),
(1 + EPSILON, -1), (1 + 2·EPSILON, -1).  Delivered in one order the tie set
contains the middle result; delivered in the reverse order it does not, so the
tie-set contents depend on delivery order. -/
theorem C2_counterexample :
    evaluate_partition cex2Q1 fixSub fixSS none none = Except.ok cex2B1
    ∧ evaluate_partition cex2Q2 fixSub fixSS none none = Except.ok cex2B2
    ∧ evaluate_partition cex2Q3 fixSub fixSS none none = Except.ok cex2B3
    ∧ List.Perm [cex2B1, cex2B2, cex2B3] [cex2B3, cex2B2, cex2B1]
    ∧ cex2B2 ∈ (sia_fold fixDefault [cex2B1, cex2B2, cex2B3]).2
    ∧ cex2B2 ∉ (sia_fold fixDefault [cex2B3, cex2B2, cex2B1]).2 := by
  refine ⟨by with_unfolding_all decide, by with_unfolding_all decide,
    by with_unfolding_all decide, ?_, by with_unfolding_all decide,
    by with_unfolding_all decide⟩
  exact (List.reverse_perm [cex2B1, cex2B2, cex2B3]).symm

set_option maxRecDepth 4000 in
/-- C2 witness: the amended theorem applied to two separated results delivered
in both orders. -/
theorem C2_witness :
    SeparatedKeys [cex1A1, wit1B] ∧ List.Perm [cex1A1, wit1B] [wit1B, cex1A1]
    ∧ List.Perm (sia_fold fixDefault [cex1A1, wit1B]).2
        (sia_fold fixDefault [wit1B, cex1A1]).2 :=
  ⟨by with_unfolding_all decide, (List.reverse_perm [cex1A1, wit1B]).symm,
    C2_tie_order_independence fixDefault [cex1A1, wit1B] [wit1B, cex1A1]
      (by with_unfolding_all decide) ((List.reverse_perm [cex1A1, wit1B]).symm)⟩

/-! ### C3 -/

lemma mem_has_no_cause (ss : SystemStateSpecification) :
    ShortCircuitConditions.NO_CAUSE ∈ has_no_cause_or_effect ss
      ↔ ss.cause.intrinsic_information ≤ 0 := by
  unfold has_no_cause_or_effect
  by_cases hc : ss.cause.intrinsic_information ≤ 0 <;>
    by_cases he : ss.effect.intrinsic_information ≤ 0 <;>
    simp [hc, he]

lemma mem_has_no_effect (ss : SystemStateSpecification) :
    ShortCircuitConditions.NO_EFFECT ∈ has_no_cause_or_effect ss
      ↔ ss.effect.intrinsic_information ≤ 0 := by
  unfold has_no_cause_or_effect
  by_cases hc : ss.cause.intrinsic_information ≤ 0 <;>
    by_cases he : ss.effect.intrinsic_information ≤ 0 <;>
    simp [hc, he]

lemma has_no_cause_or_effect_nonempty (ss : SystemStateSpecification)
    (h : ss.cause.intrinsic_information ≤ 0 ∨ ss.effect.intrinsic_information ≤ 0) :
    (has_no_cause_or_effect ss).isEmpty = false := by
  unfold has_no_cause_or_effect
  rcases h with h | h
  · simp [h]
  · by_cases hc : ss.cause.intrinsic_information ≤ 0 <;> simp [hc, h]

/-- C3: when the resolved system state has intrinsic information ≤ 0 in the
cause and/or effect direction, sia() returns the null SIA (phi = 0, partition
= None) whose reasons contain NO_CAUSE and/or NO_EFFECT respectively, and the
result does not depend on the candidate partitions — none is evaluated before
returning. -/
theorem C3_shortcircuit_no_cause_or_effect (subsystem : Subsystem)
    (partitions : List Partition) (repertoire_distance : Option String)
    (directions : Option (List Direction))
    (h : (system_intrinsic_information subsystem).cause.intrinsic_information ≤ 0
       ∨ (system_intrinsic_information subsystem).effect.intrinsic_information ≤ 0) :
    sia subsystem partitions repertoire_distance directions
        = Except.ok
            (null_sia (system_intrinsic_information subsystem)
              (has_no_cause_or_effect (system_intrinsic_information subsystem)),
             [null_sia (system_intrinsic_information subsystem)
               (has_no_cause_or_effect (system_intrinsic_information subsystem))])
      ∧ (null_sia (system_intrinsic_information subsystem)
          (has_no_cause_or_effect (system_intrinsic_information subsystem))).phi = 0
      ∧ (null_sia (system_intrinsic_information subsystem)
          (has_no_cause_or_effect (system_intrinsic_information subsystem))).partition
          = none
      ∧ ((system_intrinsic_information subsystem).cause.intrinsic_information ≤ 0
          ↔ ShortCircuitConditions.NO_CAUSE
            ∈ has_no_cause_or_effect (system_intrinsic_information subsystem))
      ∧ ((system_intrinsic_information subsystem).effect.intrinsic_information ≤ 0
          ↔ ShortCircuitConditions.NO_EFFECT
            ∈ has_no_cause_or_effect (system_intrinsic_information subsystem))
      ∧ ∀ partitions2 : List Partition,
          sia subsystem partitions2 repertoire_distance directions
            = sia subsystem partitions repertoire_distance directions := by
  have hne := has_no_cause_or_effect_nonempty (system_intrinsic_information subsystem) h
  refine ⟨?_, rfl, rfl, (mem_has_no_cause _).symm, (mem_has_no_effect _).symm, ?_⟩
  · unfold sia
    simp [hne]
  · intro partitions2
    unfold sia
    simp [hne]

/-- A concrete subsystem with zero cause-direction intrinsic information. -/
def wit3Sub : Subsystem :=
  { node_indices := [0]
    intrinsic_information := fun d =>
      match d with
      | Direction.CAUSE => { state := 0, intrinsic_information := 0 }
      | Direction.EFFECT => { state := 0, intrinsic_information := 1 }
    integration_value := fun p _ _ _ => { phi := (p.from_nodes.length : ℚ) }
    ces := []
    relations_of := fun _ => { sum_phi := 0 } }

/-- C3 witness: the theorem applied to a concrete subsystem with zero
cause-direction intrinsic information. -/
theorem C3_witness :
    ((system_intrinsic_information wit3Sub).cause.intrinsic_information ≤ 0
      ∨ (system_intrinsic_information wit3Sub).effect.intrinsic_information ≤ 0)
    ∧ (sia wit3Sub [cex1P1] none none
        = Except.ok
            (null_sia (system_intrinsic_information wit3Sub)
              (has_no_cause_or_effect (system_intrinsic_information wit3Sub)),
             [null_sia (system_intrinsic_information wit3Sub)
               (has_no_cause_or_effect (system_intrinsic_information wit3Sub))])
       ∧ (null_sia (system_intrinsic_information wit3Sub)
           (has_no_cause_or_effect (system_intrinsic_information wit3Sub))).phi = 0
       ∧ (null_sia (system_intrinsic_information wit3Sub)
           (has_no_cause_or_effect (system_intrinsic_information wit3Sub))).partition
           = none
       ∧ ((system_intrinsic_information wit3Sub).cause.intrinsic_information ≤ 0
           ↔ ShortCircuitConditions.NO_CAUSE
             ∈ has_no_cause_or_effect (system_intrinsic_information wit3Sub))
       ∧ ((system_intrinsic_information wit3Sub).effect.intrinsic_information ≤ 0
           ↔ ShortCircuitConditions.NO_EFFECT
             ∈ has_no_cause_or_effect (system_intrinsic_information wit3Sub))
       ∧ ∀ partitions2 : List Partition,
           sia wit3Sub partitions2 none none = sia wit3Sub [cex1P1] none none) :=
  ⟨Or.inl (by decide),
    C3_shortcircuit_no_cause_or_effect wit3Sub [cex1P1] none none (Or.inl (by decide))⟩

/-! ### C4 -/

lemma foldl_min_mem (xs : List ℚ) : ∀ x : ℚ, xs.foldl min x ∈ x :: xs := by
  induction xs with
  | nil =>
    intro x
    simp
  | cons a as ih =>
    intro x
    rw [List.foldl_cons]
    rcases List.mem_cons.mp (ih (min x a)) with he | hm
    · rw [he]
      rcases le_total x a with hxa | hax
      · rw [min_eq_left hxa]
        exact List.mem_cons_self _ _
      · rw [min_eq_right hax]
        simp
    · simp [hm]

lemma foldl_min_le (xs : List ℚ) : ∀ x : ℚ, ∀ y ∈ x :: xs, xs.foldl min x ≤ y := by
  induction xs with
  | nil =>
    intro x y hy
    rw [List.mem_singleton.mp hy]
    simp
  | cons a as ih =>
    intro x y hy
    rw [List.foldl_cons]
    rcases List.mem_cons.mp hy with hyx | hy2
    · rw [hyx]
      exact le_trans (ih (min x a) (min x a) (List.mem_cons_self _ _)) (min_le_left _ _)
    · rcases List.mem_cons.mp hy2 with hya | hy3
      · rw [hya]
        exact le_trans (ih (min x a) (min x a) (List.mem_cons_self _ _)) (min_le_right _ _)
      · exact ih (min x a) y (List.mem_cons_of_mem _ hy3)

lemma listMin_spec (l : List ℚ) (hne : l ≠ []) :
    ∃ m, listMin l = Except.ok m ∧ m ∈ l ∧ ∀ y ∈ l, m ≤ y := by
  match l, hne with
  | x :: xs, _ =>
    exact ⟨xs.foldl min x, rfl, foldl_min_mem xs x, foldl_min_le xs x⟩

/-- C4: evaluate_partition returns an SIA whose phi is the minimum of the
per-direction phi values over the requested directions (default both), whose
normalized phi is phi times the partition's normalization factor (the factor
defaulting to 1 / (|from_nodes| · |to_nodes|) when the partition supplies none
of its own), and which carries the per-direction results for both cause and
effect. -/
theorem C4_evaluate_partition_spec (partition : Partition) (subsystem : Subsystem)
    (system_state : SystemStateSpecification) (repertoire_distance : Option String)
    (dirs : List Direction) (hne : dirs ≠ []) (n : ℚ)
    (hn : normalization_factor partition = Except.ok n) :
    ∃ r, evaluate_partition partition subsystem system_state repertoire_distance
          (some dirs) = Except.ok r
      ∧ r.phi ∈ dirs.map (fun d =>
          (subsystem.integration_value partition system_state repertoire_distance d).phi)
      ∧ (∀ d ∈ dirs, r.phi ≤
          (subsystem.integration_value partition system_state repertoire_distance d).phi)
      ∧ r.normalized_phi = r.phi * n
      ∧ r.cause = some (subsystem.integration_value partition system_state
          repertoire_distance Direction.CAUSE)
      ∧ r.effect = some (subsystem.integration_value partition system_state
          repertoire_distance Direction.EFFECT)
      ∧ (partition.custom_normalization = none →
          n = 1 / ((partition.from_nodes.length * partition.to_nodes.length : ℕ) : ℚ))
      ∧ evaluate_partition partition subsystem system_state repertoire_distance none
          = evaluate_partition partition subsystem system_state repertoire_distance
              (some Direction.both) := by
  have hmapne : dirs.map (fun d =>
      (subsystem.integration_value partition system_state repertoire_distance d).phi)
        ≠ [] := by
    intro hmap
    exact hne (List.map_eq_nil_iff.mp hmap)
  obtain ⟨m, hmin, hmem, hle⟩ := listMin_spec _ hmapne
  refine ⟨{ phi := m
            normalized_phi := m * n
            cause := some (subsystem.integration_value partition system_state
              repertoire_distance Direction.CAUSE)
            effect := some (subsystem.integration_value partition system_state
              repertoire_distance Direction.EFFECT)
            partition := some partition
            system_state := some system_state
            reasons := [] }, ?_, hmem, ?_, rfl, rfl, rfl, ?_, rfl⟩
  · simp only [evaluate_partition, Option.getD_some]
    rw [hmin, hn]
  · intro d hd
    exact hle _ (List.mem_map_of_mem _ hd)
  · intro hcustom
    unfold normalization_factor at hn
    rw [hcustom] at hn
    by_cases hz : partition.from_nodes.length * partition.to_nodes.length = 0
    · rw [if_pos hz] at hn
      exact absurd hn (by simp)
    · rw [if_neg hz] at hn
      exact (Except.ok.inj hn).symm

/-- C4 witness: the theorem applied to a concrete partition with the default
normalization factor. -/
def wit4P : Partition :=
  { from_nodes := [0], to_nodes := [1, 2], custom_normalization := none }

theorem C4_witness :
    ([Direction.CAUSE, Direction.EFFECT] : List Direction) ≠ []
    ∧ normalization_factor wit4P = Except.ok (1 / 2)
    ∧ ∃ r, evaluate_partition wit4P fixSub fixSS none
          (some [Direction.CAUSE, Direction.EFFECT]) = Except.ok r
      ∧ r.phi ∈ [Direction.CAUSE, Direction.EFFECT].map (fun d =>
          (fixSub.integration_value wit4P fixSS none d).phi)
      ∧ (∀ d ∈ [Direction.CAUSE, Direction.EFFECT], r.phi ≤
          (fixSub.integration_value wit4P fixSS none d).phi)
      ∧ r.normalized_phi = r.phi * (1 / 2)
      ∧ r.cause = some (fixSub.integration_value wit4P fixSS none Direction.CAUSE)
      ∧ r.effect = some (fixSub.integration_value wit4P fixSS none Direction.EFFECT)
      ∧ (wit4P.custom_normalization = none →
          (1 / 2 : ℚ) = 1 / ((wit4P.from_nodes.length * wit4P.to_nodes.length : ℕ) : ℚ))
      ∧ evaluate_partition wit4P fixSub fixSS none none
          = evaluate_partition wit4P fixSub fixSS none (some Direction.both) :=
  ⟨by decide, by with_unfolding_all decide,
    C4_evaluate_partition_spec wit4P fixSub fixSS none
      [Direction.CAUSE, Direction.EFFECT] (by decide) (1 / 2)
      (by with_unfolding_all decide)⟩

/-! ### C5 -/

lemma evaluate_partition_ok_inversion (partition : Partition) (subsystem : Subsystem)
    (system_state : SystemStateSpecification) (repertoire_distance : Option String)
    (directions : Option (List Direction)) (r : SIA)
    (h : evaluate_partition partition subsystem system_state repertoire_distance
          directions = Except.ok r) :
    ∃ n, normalization_factor partition = Except.ok n
      ∧ r.normalized_phi = r.phi * n := by
  simp only [evaluate_partition] at h
  cases hmin : listMin ((directions.getD Direction.both).map fun d =>
      (subsystem.integration_value partition system_state repertoire_distance d).phi) with
  | error e =>
    rw [hmin] at h
    exact absurd h (by simp)
  | ok phi =>
    rw [hmin] at h
    cases hnf : normalization_factor partition with
    | error e =>
      rw [hnf] at h
      exact absurd h (by simp)
    | ok norm =>
      rw [hnf] at h
      obtain rfl := Except.ok.inj h
      exact ⟨norm, rfl, rfl⟩

/-- C5: an evaluated SIA with phi = 0 has minimization key lexicographically ≤
the key of any evaluated SIA with phi ≥ 0 and a positive normalization factor,
so no partition can score lower than a zero-phi partition. -/
theorem C5_zero_phi_key_minimal (p1 p2 : Partition) (sub1 sub2 : Subsystem)
    (ss1 ss2 : SystemStateSpecification) (rd1 rd2 : Option String)
    (d1 d2 : Option (List Direction)) (r1 r2 : SIA)
    (h1 : evaluate_partition p1 sub1 ss1 rd1 d1 = Except.ok r1)
    (h2 : evaluate_partition p2 sub2 ss2 rd2 d2 = Except.ok r2)
    (hz : r1.phi = 0) (hpos : 0 ≤ r2.phi) (n2 : ℚ)
    (hn2 : normalization_factor p2 = Except.ok n2) (hn2pos : 0 < n2) :
    lexLe (sia_minimization_key r1) (sia_minimization_key r2) := by
  obtain ⟨m1, hm1, hr1⟩ :=
    evaluate_partition_ok_inversion p1 sub1 ss1 rd1 d1 r1 h1
  obtain ⟨m2, hm2, hr2⟩ :=
    evaluate_partition_ok_inversion p2 sub2 ss2 rd2 d2 r2 h2
  have hm2n : m2 = n2 := by
    rw [hm2] at hn2
    exact Except.ok.inj hn2
  subst hm2n
  unfold sia_minimization_key lexLe
  rw [hr1, hr2, hz]
  simp only [zero_mul, neg_zero]
  rcases lt_or_eq_of_le (mul_nonneg hpos (le_of_lt hn2pos)) with hlt | heq
  · exact Or.inl hlt
  · refine Or.inr ⟨heq, ?_⟩
    have hphi : r2.phi = 0 := by
      rcases mul_eq_zero.mp heq.symm with hp | hnz
      · exact hp
      · exact absurd hnz (ne_of_gt hn2pos)
    rw [hphi]
    simp

/-- C5 witness: a zero-phi evaluation compared against a positive-phi
evaluation with a positive normalization factor. -/
def wit5Sub : Subsystem :=
  { node_indices := [0, 1]
    intrinsic_information := fun _ => { state := 0, intrinsic_information := 1 }
    integration_value := fun p _ _ _ => { phi := ((p.from_nodes.length : ℚ) - 1) }
    ces := []
    relations_of := fun _ => { sum_phi := 0 } }

/-- The zero-phi evaluation of cex1P1 under wit5Sub (from_nodes length 1). -/
def wit5R1 : SIA :=
  { phi := 0, partition := some cex1P1, normalized_phi := 0
    cause := some { phi := 0 }, effect := some { phi := 0 }
    system_state := some fixSS, reasons := [] }

/-- The phi = 1 evaluation of cex1P2 under wit5Sub (from_nodes length 2). -/
def wit5R2 : SIA :=
  { phi := 1, partition := some cex1P2, normalized_phi := (1 + EPSILON) / 2
    cause := some { phi := 1 }, effect := some { phi := 1 }
    system_state := some fixSS, reasons := [] }

set_option maxRecDepth 4000 in
theorem C5_witness :
    evaluate_partition cex1P1 wit5Sub fixSS none none = Except.ok wit5R1
    ∧ evaluate_partition cex1P2 wit5Sub fixSS none none = Except.ok wit5R2
    ∧ wit5R1.phi = 0 ∧ 0 ≤ wit5R2.phi
    ∧ normalization_factor cex1P2 = Except.ok ((1 + EPSILON) / 2)
    ∧ 0 < ((1 + EPSILON) / 2 : ℚ)
    ∧ lexLe (sia_minimization_key wit5R1) (sia_minimization_key wit5R2) :=
  ⟨by with_unfolding_all decide, by with_unfolding_all decide,
    by decide, by decide, by with_unfolding_all decide, by with_unfolding_all decide,
    C5_zero_phi_key_minimal cex1P1 cex1P2 wit5Sub wit5Sub fixSS fixSS none none
      none none wit5R1 wit5R2 (by with_unfolding_all decide)
      (by with_unfolding_all decide) (by decide) (by decide) ((1 + EPSILON) / 2)
      (by with_unfolding_all decide) (by with_unfolding_all decide)⟩

/-! ### C6 -/

/-- C6: an SIA is truthy exactly when its phi value is strictly positive, and
every NullSystemIrreducibilityAnalysis (phi = 0) is falsy. -/
theorem C6_bool_iff_positive_phi :
    (∀ s : SIA, sia_bool s = true ↔ 0 < s.phi)
    ∧ ∀ (ss : SystemStateSpecification) (reasons : List ShortCircuitConditions),
        sia_bool (null_sia ss reasons) = false := by
  constructor
  · intro s
    unfold sia_bool is_positive
    exact decide_eq_true_iff
  · intro ss reasons
    unfold sia_bool is_positive null_sia
    simp

/-! ### C7 -/

/-- C7: resolve() with the "NONE" sentinel yields the objects unchanged for any
operation and any default (the supplied default when the collection is empty),
never consulting the operation or any scoring function, while the registered
"NONE" scoring function itself raises NotImplementedError on every input: the
sentinel path succeeds even though invoking the registered function anywhere
would error. -/
theorem C7_none_sentinel (objects : List PhiObject)
    (operation : List (List ℚ × PhiObject) → Option (List ℚ × PhiObject) →
      Except PyError (List (List ℚ × PhiObject)))
    (default : Option PhiObject) :
    resolve objects (StrategySpec.single "NONE") operation default
        = Except.ok (iter_with_default objects default)
      ∧ (∀ (x : PhiObject) (xs : List PhiObject),
          resolve (x :: xs) (StrategySpec.single "NONE") operation default
            = Except.ok (x :: xs))
      ∧ (∀ d : PhiObject,
          resolve [] (StrategySpec.single "NONE") operation (some d) = Except.ok [d])
      ∧ phi_object_tie_resolution_strategies "NONE" = some strategy_none
      ∧ ∀ m : PhiObject, strategy_none m = Except.error PyError.notImplementedError := by
  refine ⟨?_, ?_, ?_, rfl, fun m => rfl⟩
  · unfold resolve
    rw [if_pos rfl]
  · intro x xs
    unfold resolve iter_with_default
    rw [if_pos rfl]
    simp
  · intro d
    unfold resolve iter_with_default
    rw [if_pos rfl]
    simp

/-! ### C8 -/

lemma except_map_ok (f : PhiObject → Except PyError (List ℚ)) (g : PhiObject → List ℚ) :
    ∀ l : List PhiObject, (∀ x ∈ l, f x = Except.ok (g x)) →
      except_map f l = Except.ok (l.map g) := by
  intro l
  induction l with
  | nil =>
    intro _
    rfl
  | cons a as ih =>
    intro h
    unfold except_map
    rw [h a (List.mem_cons_self _ _), ih (fun x hx => h x (List.mem_cons_of_mem _ hx))]
    rfl

lemma zip_map_self (k : PhiObject → List ℚ) :
    ∀ l : List PhiObject, (l.map k).zip l = l.map (fun o => (k o, o)) := by
  intro l
  induction l with
  | nil => rfl
  | cons a as ih =>
    rw [List.map_cons, List.map_cons, List.zip_cons_cons, ih]

lemma filter_map_comm (h : PhiObject → List ℚ × PhiObject)
    (p : List ℚ × PhiObject → Bool) :
    ∀ l : List PhiObject, (l.map h).filter p = (l.filter fun o => p (h o)).map h := by
  intro l
  induction l with
  | nil => rfl
  | cons a as ih =>
    rw [List.map_cons, List.filter_cons, List.filter_cons]
    by_cases hp : p (h a) = true <;> simp [hp, ih]

lemma all_map_comm (h : PhiObject → List ℚ × PhiObject)
    (p : List ℚ × PhiObject → Bool) :
    ∀ l : List PhiObject, (l.map h).all p = l.all fun o => p (h o) := by
  intro l
  induction l with
  | nil => rfl
  | cons a as ih =>
    rw [List.map_cons, List.all_cons, List.all_cons, ih]

lemma resolve_extremal_general (objects : List PhiObject) (strategy : StrategySpec)
    (k : PhiObject → List ℚ) (beats : List ℚ → List ℚ → Bool)
    (hnone : strategy ≠ StrategySpec.single "NONE")
    (hk : ∀ o ∈ objects, strategies_to_key_function strategy o = Except.ok (k o))
    (hne : objects ≠ []) :
    resolve objects strategy (all_extrema beats) none
      = Except.ok (objects.filter fun o => objects.all fun q => ! beats (k q) (k o)) := by
  match objects, hne with
  | o0 :: os, _ =>
    have hmap := except_map_ok (strategies_to_key_function strategy) k (o0 :: os) hk
    unfold resolve
    rw [if_neg hnone, hmap]
    show (match all_extrema beats (((o0 :: os).map k).zip (o0 :: os)) none with
      | Except.error e => Except.error e
      | Except.ok ties => Except.ok (ties.map Prod.snd)) = _
    rw [zip_map_self k (o0 :: os)]
    unfold all_extrema
    rw [List.map_cons]
    show Except.ok ((((o0 :: os).map fun o => (k o, o)).filter fun p =>
        ((o0 :: os).map fun o => (k o, o)).all fun q => ! beats q.1 p.1).map Prod.snd)
      = _
    rw [filter_map_comm]
    rw [List.map_map]
    congr 1
    have hpred : ∀ o : PhiObject,
        (((o0 :: os).map fun o2 => (k o2, o2)).all fun q => ! beats q.1 (k o, o).1)
          = (o0 :: os).all fun q => ! beats (k q) (k o) := by
      intro o
      rw [all_map_comm]
    calc (((o0 :: os).filter fun o =>
            ((o0 :: os).map fun o2 => (k o2, o2)).all fun q => ! beats q.1 (k o, o).1).map
              (Prod.snd ∘ fun o => (k o, o)))
        = ((o0 :: os).filter fun o =>
            (o0 :: os).all fun q => ! beats (k q) (k o)).map
              (Prod.snd ∘ fun o => (k o, o)) := by
          congr 1
          exact List.filter_congr fun o _ => hpred o
      _ = ((o0 :: os).filter fun o => (o0 :: os).all fun q => ! beats (k q) (k o)) := by
          have h2 : (Prod.snd ∘ fun o : PhiObject => (k o, o)) = id := rfl
          rw [h2, List.map_id]

/-- Candidate A of the worked example: phi 1, purview size 2. -/
def cex8A : PhiObject :=
  { phi := 1, purview := [0, 1], normalized_phi := 1
    partitioned_repertoire := none, specified_pmi := 0 }

/-- Candidate B of the worked example: phi 1, purview size 3. -/
def cex8B : PhiObject :=
  { phi := 1, purview := [0, 1, 2], normalized_phi := 1
    partitioned_repertoire := none, specified_pmi := 0 }

/-- C8: resolve() ranks candidates by the tuple of the named strategies'
scores in the given order and yields every candidate whose tuple is extremal
under the reduction operation — all of them, not merely one — with all-maxima
as the default operation and all-minima for the partitions resolver; on
candidates A(phi 1, purview size 2) and B(phi 1, purview size 3) the chain
["PHI", "PURVIEW_SIZE"] with all-maxima yields exactly B and
["NEGATIVE_PURVIEW_SIZE"] alone yields exactly A. -/
theorem C8_resolve_extremal (objects : List PhiObject) (strategy : StrategySpec)
    (k : PhiObject → List ℚ)
    (hnone : strategy ≠ StrategySpec.single "NONE")
    (hk : ∀ o ∈ objects, strategies_to_key_function strategy o = Except.ok (k o))
    (hne : objects ≠ []) :
    resolve objects strategy all_maxima none
        = Except.ok (objects.filter fun o =>
            objects.all fun q => ! key_tuple_lt (k o) (k q))
      ∧ resolve objects strategy all_minima none
        = Except.ok (objects.filter fun o =>
            objects.all fun q => ! key_tuple_lt (k q) (k o))
      ∧ (∀ (mips : List PhiObject) (strat : Option StrategySpec) (cfg : StrategySpec),
          resolve_ties_partitions mips strat cfg
            = resolve mips (strat.getD cfg) all_minima none)
      ∧ resolve [cex8A, cex8B] (StrategySpec.chain ["PHI", "PURVIEW_SIZE"])
          all_maxima none = Except.ok [cex8B]
      ∧ resolve [cex8A, cex8B] (StrategySpec.single "NEGATIVE_PURVIEW_SIZE")
          all_maxima none = Except.ok [cex8A] :=
  ⟨resolve_extremal_general objects strategy k (fun a b => key_tuple_lt b a) hnone hk hne,
    resolve_extremal_general objects strategy k (fun a b => key_tuple_lt a b) hnone hk hne,
    fun _ _ _ => rfl,
    by with_unfolding_all decide,
    by with_unfolding_all decide⟩

/-- C8 witness: the theorem applied to the worked example with the chained
strategy ["PHI", "PURVIEW_SIZE"]. -/
theorem C8_witness :
    (StrategySpec.chain ["PHI", "PURVIEW_SIZE"] ≠ StrategySpec.single "NONE")
    ∧ (∀ o ∈ [cex8A, cex8B],
        strategies_to_key_function (StrategySpec.chain ["PHI", "PURVIEW_SIZE"]) o
          = Except.ok [o.phi, (o.purview.length : ℚ)])
    ∧ ([cex8A, cex8B] : List PhiObject) ≠ []
    ∧ resolve [cex8A, cex8B] (StrategySpec.chain ["PHI", "PURVIEW_SIZE"])
        all_maxima none
        = Except.ok ([cex8A, cex8B].filter fun o =>
            [cex8A, cex8B].all fun q =>
              ! key_tuple_lt [o.phi, (o.purview.length : ℚ)]
                [q.phi, (q.purview.length : ℚ)]) :=
  ⟨by decide, by with_unfolding_all decide, by decide,
    (C8_resolve_extremal [cex8A, cex8B] (StrategySpec.chain ["PHI", "PURVIEW_SIZE"])
      (fun o => [o.phi, (o.purview.length : ℚ)]) (by decide)
      (by with_unfolding_all decide) (by decide)).1⟩

/-! ### C9 -/

/-- C9 (amended): given an already-computed SIA, distinction set and relation
set, phi_structure() returns a PhiStructure whose big_phi equals the sum of
the phi values of the supplied distinctions that survive congruence filtering
against the SIA's system state, plus the supplied relations' sum_phi — which
collapses to the plain supplied sum exactly when every supplied distinction is
congruent. -/
theorem C9_big_phi_composition (subsystem : Subsystem) (partitions : List Partition)
    (s : SIA) (d : List Distinction) (r : Relations) (ps : PhiStructure)
    (h : phi_structure subsystem partitions (some s) (some d) (some r) = Except.ok ps) :
    big_phi ps
        = ((resolve_congruence d s.system_state).map Distinction.phi).sum + r.sum_phi
    ∧ ((∀ dist ∈ d, dist.congruent s.system_state = true) →
        big_phi ps = (d.map Distinction.phi).sum + r.sum_phi) := by
  have hps : ps = { sia := s
                    distinctions := resolve_congruence d s.system_state
                    relations := r } := (Except.ok.inj h).symm
  subst hps
  refine ⟨rfl, ?_⟩
  intro hcong
  have hfilter : resolve_congruence d s.system_state = d := by
    unfold resolve_congruence
    exact List.filter_eq_self.mpr hcong
  show ((resolve_congruence d s.system_state).map Distinction.phi).sum + r.sum_phi
    = (d.map Distinction.phi).sum + r.sum_phi
  rw [hfilter]

/-- An incongruent distinction carrying phi 1. -/
def cex9d : Distinction := { phi := 1, congruent := fun _ => false }

/-- A congruent distinction carrying phi 2. -/
def wit9d : Distinction := { phi := 2, congruent := fun _ => true }

/-- Concrete relations with sum_phi 0. -/
def cex9r : Relations := { sum_phi := 0 }

/-- C9 counterexample: an incongruent supplied distinction is filtered out by
phi_structure(), so the returned big_phi (0) differs from the sum of the
supplied distinctions' phi values plus the supplied relations' sum_phi (1). -/
theorem C9_counterexample :
    (phi_structure fixSub [] (some (null_sia fixSS [])) (some [cex9d])
        (some cex9r)).map big_phi = Except.ok 0
    ∧ ([cex9d].map Distinction.phi).sum + cex9r.sum_phi = 1
    ∧ (phi_structure fixSub [] (some (null_sia fixSS [])) (some [cex9d])
        (some cex9r)).map big_phi
        ≠ Except.ok (([cex9d].map Distinction.phi).sum + cex9r.sum_phi) := by
  refine ⟨?_, ?_, ?_⟩ <;> with_unfolding_all decide

/-- C9 witness: the amended theorem applied to a congruent supplied
distinction set. -/
theorem C9_witness :
    (∀ dist ∈ [wit9d], dist.congruent (null_sia fixSS []).system_state = true)
    ∧ (big_phi { sia := null_sia fixSS []
                 distinctions := resolve_congruence [wit9d] (null_sia fixSS []).system_state
                 relations := cex9r }
          = ((resolve_congruence [wit9d] (null_sia fixSS []).system_state).map
              Distinction.phi).sum + cex9r.sum_phi
       ∧ ((∀ dist ∈ [wit9d], dist.congruent (null_sia fixSS []).system_state = true) →
           big_phi { sia := null_sia fixSS []
                     distinctions := resolve_congruence [wit9d]
                       (null_sia fixSS []).system_state
                     relations := cex9r }
             = ([wit9d].map Distinction.phi).sum + cex9r.sum_phi)) :=
  ⟨by decide,
    C9_big_phi_composition fixSub [] (null_sia fixSS []) [wit9d] cex9r
      { sia := null_sia fixSS []
        distinctions := resolve_congruence [wit9d] (null_sia fixSS []).system_state
        relations := cex9r } rfl⟩

/-! ### C10 -/

/-- C10: for a partition that supplies no normalization_factor of its own, the
default factor 1 / (|from_nodes| · |to_nodes|) is defined and positive exactly
when both sides are non-empty, and an empty side raises ZeroDivisionError. -/
theorem C10_default_normalization (p : Partition)
    (h : p.custom_normalization = none) :
    ((p.from_nodes = [] ∨ p.to_nodes = []) →
        normalization_factor p = Except.error PyError.zeroDivisionError)
    ∧ (p.from_nodes ≠ [] → p.to_nodes ≠ [] →
        normalization_factor p
            = Except.ok (1 / ((p.from_nodes.length * p.to_nodes.length : ℕ) : ℚ))
          ∧ (0 : ℚ) < 1 / ((p.from_nodes.length * p.to_nodes.length : ℕ) : ℚ))
    ∧ ∀ q : ℚ, normalization_factor p = Except.ok q → 0 < q →
        p.from_nodes ≠ [] ∧ p.to_nodes ≠ [] := by
  unfold normalization_factor
  rw [h]
  refine ⟨?_, ?_, ?_⟩
  · intro hempty
    have hz : p.from_nodes.length * p.to_nodes.length = 0 := by
      rcases hempty with he | he <;> simp [he]
    rw [if_pos hz]
  · intro hf ht
    have hz : p.from_nodes.length * p.to_nodes.length ≠ 0 := by
      simp [Nat.mul_eq_zero, List.length_eq_zero, hf, ht]
    rw [if_neg hz]
    refine ⟨rfl, ?_⟩
    apply div_pos one_pos
    exact_mod_cast Nat.pos_of_ne_zero hz
  · intro q hq _
    by_cases hz : p.from_nodes.length * p.to_nodes.length = 0
    · rw [if_pos hz] at hq
      exact absurd hq (by simp)
    · rcases Nat.mul_ne_zero_iff.mp hz with ⟨hf, ht⟩
      exact ⟨fun he => hf (by rw [he]; rfl), fun he => ht (by rw [he]; rfl)⟩

/-- C10 witness: the theorem applied to a concrete default-normalized
partition with non-empty sides. -/
theorem C10_witness :
    wit4P.custom_normalization = none
    ∧ (((wit4P.from_nodes = [] ∨ wit4P.to_nodes = []) →
          normalization_factor wit4P = Except.error PyError.zeroDivisionError)
       ∧ (wit4P.from_nodes ≠ [] → wit4P.to_nodes ≠ [] →
           normalization_factor wit4P
               = Except.ok (1 / ((wit4P.from_nodes.length * wit4P.to_nodes.length : ℕ) : ℚ))
             ∧ (0 : ℚ) < 1 / ((wit4P.from_nodes.length * wit4P.to_nodes.length : ℕ) : ℚ))
       ∧ ∀ q : ℚ, normalization_factor wit4P = Except.ok q → 0 < q →
           wit4P.from_nodes ≠ [] ∧ wit4P.to_nodes ≠ []) :=
  ⟨rfl, C10_default_normalization wit4P rfl⟩

end PyPhi
